import Mathlib

/-!
Shallow embedding of the my-animator document model and its editing
operations, translated from the TypeScript sources (`src/App.tsx`,
`src/utils/project.ts`, `src/utils/images.ts`,
`src/components/StageEditor.tsx`).  Stroke coordinates are modelled as
integers: none of the verified properties depends on their numeric value,
only on the length and order of the point list.  `Date.now()` timestamps
enter every operation as an explicit `now : Nat` argument, and `uuidv4()`
identifiers enter as explicit id arguments or id-supply functions.
-/

/-- DrawingTool from `types.ts`: 'pencil' | 'smooth' | 'highlight' | 'gradient' | 'eraser'. -/
inductive DrawingTool
  | pencil | smooth | highlight | gradient | eraser
deriving DecidableEq, Repr

/-- DrawingStroke from `types.ts`: id, flat point list, color, size, mode. -/
structure DrawingStroke where
  id : String
  points : List Int
  color : String
  size : Int
  mode : DrawingTool
deriving DecidableEq, Repr

/-- DrawingLayer from `types.ts`: id, name, visible, strokes, optional imageUrl. -/
structure DrawingLayer where
  id : String
  name : String
  visible : Bool
  strokes : List DrawingStroke
  imageUrl : Option String := none
deriving DecidableEq, Repr

/-- FrameData from `types.ts`.  `activeLayerId` is declared `string` in the
TypeScript interface but `handleDeleteLayer` (scope 'all') writes
`nextActiveLayerId ?? undefined` into it, so it is modelled as an option. -/
structure FrameData where
  id : String
  frameNumber : Nat
  imageUrl : String
  outlineUrl : Option String := none
  compositedUrl : Option String := none
  layers : List DrawingLayer
  activeLayerId : Option String
  width : Int
  height : Int
deriving DecidableEq, Repr

/-- AnimatorProject from `types.ts`.  `name`, `backgroundColor` and `audioUrl`
are optional fields; several handlers rebuild the project as
`{ frames, updatedAt: Date.now() }`, which leaves them `undefined`. -/
structure AnimatorProject where
  name : Option String := none
  backgroundColor : Option String := none
  frames : List FrameData
  audioUrl : Option String := none
  updatedAt : Nat
deriving DecidableEq, Repr

/-- The React state relevant to the undo/redo engine: the project plus the
`redoStacks : Record<string, DrawingStroke[]>` map, modelled as an
association list (reads of absent keys default to `[]` exactly as the
`?? []` / truthiness checks in the handlers do). -/
structure EditorState where
  project : AnimatorProject
  redoStacks : List (String × List DrawingStroke)
deriving DecidableEq, Repr

/-- Key of the per-(frame, layer) redo stack: `${frameId}:${layerId}`. -/
def stackKey (frameId layerId : String) : String :=
  frameId ++ ":" ++ layerId

/-- Read `stacks[key]`, defaulting to the empty stack for an absent key. -/
def getStack : List (String × List DrawingStroke) → String → List DrawingStroke
  | [], _ => []
  | e :: rest, k => if e.1 == k then e.2 else getStack rest k

/-- Write `{...stacks, [key]: v}`: replace the value of an existing key in
place, or append a new entry. -/
def setStack : List (String × List DrawingStroke) → String → List DrawingStroke →
    List (String × List DrawingStroke)
  | [], k, v => [(k, v)]
  | e :: rest, k, v => if e.1 == k then (k, v) :: rest else e :: setStack rest k v

/-- Remove a key, as `delete next[key]` does in `handleDeleteLayer`. -/
def removeStack (sts : List (String × List DrawingStroke)) (k : String) :
    List (String × List DrawingStroke) :=
  sts.filter (fun e => e.1 ≠ k)

/-- JavaScript `Array.prototype.findIndex` combined with the subsequent
direct element access used throughout `App.tsx`: the first index whose
element satisfies the predicate, together with that element. -/
def lookupIdx (p : α → Bool) : List α → Option (Nat × α)
  | [] => none
  | a :: as => if p a then some (0, a) else (lookupIdx p as).map (fun x => (x.1 + 1, x.2))

/-- The strokes of layer `layerId` of frame `frameId`, read the way the
handlers read them (first frame with the id, first layer with the id). -/
def strokesAt (st : EditorState) (frameId layerId : String) : Option (List DrawingStroke) :=
  match lookupIdx (fun fr => fr.id == frameId) st.project.frames with
  | none => none
  | some (_, frame) =>
    match lookupIdx (fun l => l.id == layerId) frame.layers with
    | none => none
    | some (_, layer) => some layer.strokes

/-- handleCommitStroke (`App.tsx` 529-550): append the stroke to every
layer matching the (frameId, layerId) pair, rebuild the project as
`{ frames, updatedAt: Date.now() }`, and clear that key's redo stack. -/
def handleCommitStroke (frameId layerId : String) (stroke : DrawingStroke)
    (now : Nat) (st : EditorState) : EditorState :=
  let frames := st.project.frames.map (fun frame =>
    if frame.id == frameId then
      { frame with layers := frame.layers.map (fun layer =>
          if layer.id == layerId then
            { layer with strokes := layer.strokes ++ [stroke] }
          else layer) }
    else frame)
  { project := { frames := frames, updatedAt := now },
    redoStacks := setStack st.redoStacks (stackKey frameId layerId) [] }

/-- finishStroke (`StageEditor.tsx` 305-319) commits the draft stroke only
when `stroke.points.length > 2`; shorter strokes are dropped without
calling `onCommitStroke`.  This is the commit path of the spec's
`commitStroke(frameId, layerId, stroke)` operation. -/
def commitStrokeChecked (frameId layerId : String) (stroke : DrawingStroke)
    (now : Nat) (st : EditorState) : EditorState :=
  if 2 < stroke.points.length then handleCommitStroke frameId layerId stroke now st else st

/-- handleUndoStroke (`App.tsx` 552-592): pop the last stroke of the active
layer (no-op when the layer is empty or the frame/layer is missing), and
push the removed stroke onto that key's redo stack. -/
def handleUndoStroke (frameId layerId : String) (now : Nat) (st : EditorState) : EditorState :=
  match lookupIdx (fun fr => fr.id == frameId) st.project.frames with
  | none => st
  | some (frameIndex, frame) =>
    match lookupIdx (fun l => l.id == layerId) frame.layers with
    | none => st
    | some (layerIndex, targetLayer) =>
      match targetLayer.strokes.getLast? with
      | none => st
      | some removedStroke =>
        let updatedLayer := { targetLayer with strokes := targetLayer.strokes.dropLast }
        let updatedFrame := { frame with layers := frame.layers.set layerIndex updatedLayer }
        let updatedFrames := st.project.frames.set frameIndex updatedFrame
        let key := stackKey frameId layerId
        { project := { frames := updatedFrames, updatedAt := now },
          redoStacks := setStack st.redoStacks key (getStack st.redoStacks key ++ [removedStroke]) }

/-- handleRedoStroke (`App.tsx` 594-640): pop the top of the key's redo
stack (no-op when empty), then append the popped stroke back at the end of
the layer's stroke list.  When the stack is non-empty but the frame or
layer is missing, the stack is still popped while the project stays as it
was, exactly as in the source (the stack update runs first). -/
def handleRedoStroke (frameId layerId : String) (now : Nat) (st : EditorState) : EditorState :=
  let key := stackKey frameId layerId
  let stack := getStack st.redoStacks key
  match stack.getLast? with
  | none => st
  | some strokeToRestore =>
    let stacks' := setStack st.redoStacks key stack.dropLast
    match lookupIdx (fun fr => fr.id == frameId) st.project.frames with
    | none => { st with redoStacks := stacks' }
    | some (frameIndex, frame) =>
      match lookupIdx (fun l => l.id == layerId) frame.layers with
      | none => { st with redoStacks := stacks' }
      | some (layerIndex, targetLayer) =>
        let updatedLayer := { targetLayer with strokes := targetLayer.strokes ++ [strokeToRestore] }
        let updatedFrame := { frame with layers := frame.layers.set layerIndex updatedLayer }
        let updatedFrames := st.project.frames.set frameIndex updatedFrame
        { project := { frames := updatedFrames, updatedAt := now },
          redoStacks := stacks' }

lemma getStack_setStack_self (sts : List (String × List DrawingStroke))
    (k : String) (v : List DrawingStroke) : getStack (setStack sts k v) k = v := by
  induction sts with
  | nil => simp [setStack, getStack]
  | cons e rest ih =>
    by_cases h : e.1 == k
    · simp [setStack, getStack, h]
    · simp [setStack, getStack, h, ih]

lemma getStack_setStack_ne (sts : List (String × List DrawingStroke))
    (k k' : String) (v : List DrawingStroke) (h : k ≠ k') :
    getStack (setStack sts k v) k' = getStack sts k' := by
  induction sts with
  | nil => simp [setStack, getStack, h]
  | cons e rest ih =>
    by_cases he : e.1 == k
    · have hk : ¬ ((k : String) == k') = true := by simpa using h
      have he' : (e.1 == k') = false := by
        have : e.1 = k := by simpa using he
        subst this
        simpa using hk
      simp [setStack, getStack, he, hk, he']
    · simp [setStack, getStack, he, ih]

lemma handleRedoStroke_of_empty (frameId layerId : String) (now : Nat) (st : EditorState)
    (h : getStack st.redoStacks (stackKey frameId layerId) = []) :
    handleRedoStroke frameId layerId now st = st := by
  unfold handleRedoStroke
  simp [h]

/-- C2: any `handleCommitStroke` on a (frame, layer) key resets that key's
redo stack to the empty stack, and therefore the sequence
`undo(); commitStroke(s); redo()` ends in a redo that is a no-op: the final
`handleRedoStroke` returns the editor state (project and stacks) produced
by the commit, unchanged. -/
theorem commit_clears_redo_stack (st : EditorState) (f l : String) (s : DrawingStroke)
    (now1 now2 now3 : Nat) :
    getStack (handleCommitStroke f l s now2 st).redoStacks (stackKey f l) = [] ∧
    handleRedoStroke f l now3 (handleCommitStroke f l s now2 (handleUndoStroke f l now1 st)) =
      handleCommitStroke f l s now2 (handleUndoStroke f l now1 st) := by
  refine ⟨?_, ?_⟩
  · simp [handleCommitStroke, getStack_setStack_self]
  · apply handleRedoStroke_of_empty
    simp [handleCommitStroke, getStack_setStack_self]

/-- One undo step viewed at a single (stroke list, redo stack) pair. -/
def absUndo (p : List DrawingStroke × List DrawingStroke) :
    List DrawingStroke × List DrawingStroke :=
  match p.1.getLast? with
  | none => p
  | some x => (p.1.dropLast, p.2 ++ [x])

/-- One redo step viewed at a single (stroke list, redo stack) pair. -/
def absRedo (p : List DrawingStroke × List DrawingStroke) :
    List DrawingStroke × List DrawingStroke :=
  match p.2.getLast? with
  | none => p
  | some x => (p.1 ++ [x], p.2.dropLast)

lemma lookupIdx_getElem {p : α → Bool} {l : List α} {i : Nat} {a : α}
    (h : lookupIdx p l = some (i, a)) : l[i]? = some a ∧ p a = true := by
  induction l generalizing i with
  | nil => simp [lookupIdx] at h
  | cons x xs ih =>
    by_cases hx : p x
    · simp [lookupIdx, hx] at h
      obtain ⟨h1, h2⟩ := h
      subst h1; subst h2
      simpa using hx
    · have hx' : p x = false := by simpa using hx
      rw [lookupIdx, hx'] at h
      simp only [Bool.false_eq_true, if_false] at h
      obtain ⟨⟨j, b⟩, hj, hmk⟩ := Option.map_eq_some'.mp h
      simp only [Prod.mk.injEq] at hmk
      obtain ⟨h1, h2⟩ := hmk
      subst h2
      obtain ⟨hget, hp⟩ := ih hj
      subst h1
      simpa using ⟨hget, hp⟩

lemma lookupIdx_set {p : α → Bool} {l : List α} {i : Nat} {a : α} (b : α)
    (h : lookupIdx p l = some (i, a)) (hb : p b = true) :
    lookupIdx p (l.set i b) = some (i, b) := by
  induction l generalizing i with
  | nil => simp [lookupIdx] at h
  | cons x xs ih =>
    by_cases hx : p x
    · simp [lookupIdx, hx] at h
      obtain ⟨h1, _⟩ := h
      subst h1
      simp [List.set, lookupIdx, hb]
    · have hx' : p x = false := by simpa using hx
      rw [lookupIdx, hx'] at h
      simp only [Bool.false_eq_true, if_false] at h
      obtain ⟨⟨j, c⟩, hj, hmk⟩ := Option.map_eq_some'.mp h
      simp only [Prod.mk.injEq] at hmk
      obtain ⟨h1, h2⟩ := hmk
      subst h1
      subst h2
      simp [List.set, lookupIdx, hx', ih hj]

lemma strokesAt_elim {st : EditorState} {f l : String} {s : List DrawingStroke}
    (h : strokesAt st f l = some s) :
    ∃ fi fr li ly, lookupIdx (fun fr => fr.id == f) st.project.frames = some (fi, fr) ∧
      lookupIdx (fun x => x.id == l) fr.layers = some (li, ly) ∧ ly.strokes = s := by
  unfold strokesAt at h
  split at h
  · exact absurd h (by simp)
  · rename_i fi fr hf
    split at h
    · exact absurd h (by simp)
    · rename_i li ly hl
      simp only [Option.some.injEq] at h
      exact ⟨fi, fr, li, ly, hf, hl, h⟩

lemma undo_sim (f l : String) (now : Nat) (st : EditorState) (s r : List DrawingStroke)
    (hs : strokesAt st f l = some s) (hr : getStack st.redoStacks (stackKey f l) = r) :
    strokesAt (handleUndoStroke f l now st) f l = some (absUndo (s, r)).1 ∧
    getStack (handleUndoStroke f l now st).redoStacks (stackKey f l) = (absUndo (s, r)).2 := by
  obtain ⟨fi, fr, li, ly, hf, hl, hstr⟩ := strokesAt_elim hs
  subst hstr
  unfold handleUndoStroke
  simp only [hf, hl]
  rcases hlast : ly.strokes.getLast? with _ | x
  · simp only [hlast]
    refine ⟨?_, ?_⟩
    · rw [hs]; simp [absUndo, hlast]
    · rw [hr]; simp [absUndo, hlast]
  · simp only [hlast]
    have hpfr : (fun fr : FrameData => fr.id == f) fr = true := (lookupIdx_getElem hf).2
    have hply : (fun x : DrawingLayer => x.id == l) ly = true := (lookupIdx_getElem hl).2
    refine ⟨?_, ?_⟩
    · unfold strokesAt
      have h1 := lookupIdx_set (p := fun fr : FrameData => fr.id == f)
        { fr with layers := fr.layers.set li { ly with strokes := ly.strokes.dropLast } } hf
        (by simpa using hpfr)
      rw [h1]
      have h2 := lookupIdx_set (p := fun x : DrawingLayer => x.id == l)
        { ly with strokes := ly.strokes.dropLast } hl (by simpa using hply)
      simp only [h2]
      simp [absUndo, hlast]
    · simp only [getStack_setStack_self]
      simp [absUndo, hlast, hr]

lemma redo_sim (f l : String) (now : Nat) (st : EditorState) (s r : List DrawingStroke)
    (hs : strokesAt st f l = some s) (hr : getStack st.redoStacks (stackKey f l) = r) :
    strokesAt (handleRedoStroke f l now st) f l = some (absRedo (s, r)).1 ∧
    getStack (handleRedoStroke f l now st).redoStacks (stackKey f l) = (absRedo (s, r)).2 := by
  obtain ⟨fi, fr, li, ly, hf, hl, hstr⟩ := strokesAt_elim hs
  subst hstr
  unfold handleRedoStroke
  simp only [hr]
  rcases hlast : r.getLast? with _ | x
  · simp only [hlast]
    refine ⟨?_, ?_⟩
    · rw [hs]; simp [absRedo, hlast]
    · rw [hr]; simp [absRedo, hlast]
  · simp only [hlast, hf, hl]
    have hpfr : (fun fr : FrameData => fr.id == f) fr = true := (lookupIdx_getElem hf).2
    have hply : (fun x : DrawingLayer => x.id == l) ly = true := (lookupIdx_getElem hl).2
    refine ⟨?_, ?_⟩
    · unfold strokesAt
      have h1 := lookupIdx_set (p := fun fr : FrameData => fr.id == f)
        { fr with layers := fr.layers.set li { ly with strokes := ly.strokes ++ [x] } } hf
        (by simpa using hpfr)
      rw [h1]
      have h2 := lookupIdx_set (p := fun y : DrawingLayer => y.id == l)
        { ly with strokes := ly.strokes ++ [x] } hl (by simpa using hply)
      simp only [h2]
      simp [absRedo, hlast]
    · simp only [getStack_setStack_self]
      simp [absRedo, hlast]

lemma sim_iterate (f l : String) (step : EditorState → EditorState)
    (astep : List DrawingStroke × List DrawingStroke → List DrawingStroke × List DrawingStroke)
    (hsim : ∀ st s r, strokesAt st f l = some s → getStack st.redoStacks (stackKey f l) = r →
      strokesAt (step st) f l = some (astep (s, r)).1 ∧
      getStack (step st).redoStacks (stackKey f l) = (astep (s, r)).2) :
    ∀ n (st : EditorState) s r, strokesAt st f l = some s →
      getStack st.redoStacks (stackKey f l) = r →
      strokesAt (step^[n] st) f l = some (astep^[n] (s, r)).1 ∧
      getStack (step^[n] st).redoStacks (stackKey f l) = (astep^[n] (s, r)).2 := by
  intro n
  induction n with
  | zero => intro st s r hs hr; simpa using ⟨hs, hr⟩
  | succ n ih =>
    intro st s r hs hr
    rw [Function.iterate_succ_apply, Function.iterate_succ_apply]
    obtain ⟨h1, h2⟩ := hsim st s r hs hr
    have := ih (step st) (astep (s, r)).1 (astep (s, r)).2 h1 h2
    simpa using this

lemma absUndo_of_getLast (s r : List DrawingStroke) (x : DrawingStroke)
    (hx : s.getLast? = some x) : absUndo (s, r) = (s.dropLast, r ++ [x]) := by
  unfold absUndo
  simp [hx]

lemma absRedo_of_getLast (s r : List DrawingStroke) (x : DrawingStroke)
    (hx : s.getLast? = some x) : absRedo (s.dropLast, r ++ [x]) = (s, r) := by
  have hne : s ≠ [] := by rintro rfl; simp at hx
  have hx' : s.getLast hne = x := by
    rw [List.getLast?_eq_getLast s hne] at hx
    exact Option.some.inj hx
  unfold absRedo
  simp only [List.getLast?_concat, List.dropLast_concat]
  rw [← hx', List.dropLast_append_getLast hne]

lemma absRoundtrip (n : Nat) : ∀ (s r : List DrawingStroke), n ≤ s.length →
    absRedo^[n] (absUndo^[n] (s, r)) = (s, r) := by
  induction n with
  | zero => simp
  | succ n ih =>
    intro s r h
    have hne : s ≠ [] := by rintro rfl; simp at h
    obtain ⟨x, hx⟩ : ∃ x, s.getLast? = some x :=
      Option.isSome_iff_exists.mp (List.getLast?_isSome.mpr hne)
    rw [Function.iterate_succ_apply']
    rw [Function.iterate_succ_apply]
    rw [absUndo_of_getLast s r x hx]
    have hlen : n ≤ s.dropLast.length := by
      rw [List.length_dropLast]; omega
    rw [ih s.dropLast (r ++ [x]) hlen]
    exact absRedo_of_getLast s r x hx

lemma absPair_id (s r : List DrawingStroke) (hne : s ≠ []) :
    absRedo (absUndo (s, r)) = (s, r) := by
  obtain ⟨x, hx⟩ : ∃ x, s.getLast? = some x :=
    Option.isSome_iff_exists.mp (List.getLast?_isSome.mpr hne)
  rw [absUndo_of_getLast s r x hx]
  exact absRedo_of_getLast s r x hx

lemma absPair_iterate (n : Nat) : ∀ (s r : List DrawingStroke), n ≤ s.length →
    (fun q => absRedo (absUndo q))^[n] (s, r) = (s, r) := by
  induction n with
  | zero => simp
  | succ n ih =>
    intro s r h
    have hne : s ≠ [] := by rintro rfl; simp at h
    rw [Function.iterate_succ_apply]
    simp only [absPair_id s r hne]
    exact ih s r (by omega)

/-- C1: on any project, for any frame f and layer l of f and any n bounded
by the length of l's stroke list, performing undo-then-redo on (f, l)
n times — and likewise n undos followed by n redos — with no intervening
commit on that key, leaves l's stroke list exactly as it was (same order
and content). -/
theorem undo_redo_roundtrip (st : EditorState) (f l : String) (n now1 now2 : Nat)
    (s : List DrawingStroke) (hs : strokesAt st f l = some s) (hn : n ≤ s.length) :
    strokesAt ((fun t => handleRedoStroke f l now2 (handleUndoStroke f l now1 t))^[n] st) f l =
      some s ∧
    strokesAt ((handleRedoStroke f l now2)^[n] ((handleUndoStroke f l now1)^[n] st)) f l =
      some s := by
  constructor
  · have hsim : ∀ (t : EditorState) s' r',
        strokesAt t f l = some s' → getStack t.redoStacks (stackKey f l) = r' →
        strokesAt (handleRedoStroke f l now2 (handleUndoStroke f l now1 t)) f l =
          some ((fun q => absRedo (absUndo q)) (s', r')).1 ∧
        getStack (handleRedoStroke f l now2 (handleUndoStroke f l now1 t)).redoStacks
            (stackKey f l) = ((fun q => absRedo (absUndo q)) (s', r')).2 := by
      intro t s' r' h1 h2
      obtain ⟨u1, u2⟩ := undo_sim f l now1 t s' r' h1 h2
      have hres := redo_sim f l now2 (handleUndoStroke f l now1 t)
        (absUndo (s', r')).1 (absUndo (s', r')).2 u1 u2
      simpa using hres
    have hiter := sim_iterate f l
      (fun t => handleRedoStroke f l now2 (handleUndoStroke f l now1 t))
      (fun q => absRedo (absUndo q)) hsim n st s
      (getStack st.redoStacks (stackKey f l)) hs rfl
    rw [absPair_iterate n s (getStack st.redoStacks (stackKey f l)) hn] at hiter
    exact hiter.1
  · have h1 := sim_iterate f l (handleUndoStroke f l now1) absUndo
      (undo_sim f l now1) n st s
      (getStack st.redoStacks (stackKey f l)) hs rfl
    have h2 := sim_iterate f l (handleRedoStroke f l now2) absRedo
      (redo_sim f l now2) n
      ((handleUndoStroke f l now1)^[n] st) _ _ h1.1 h1.2
    rw [Prod.mk.eta] at h2
    rw [absRoundtrip n s (getStack st.redoStacks (stackKey f l)) hn] at h2
    exact h2.1

/-- Concrete one-stroke editor state used to witness the C1 round trip. -/
def c1Stroke : DrawingStroke :=
  { id := "s1", points := [0, 0, 5, 5], color := "#ff0066", size := 6, mode := .pencil }

/-- Concrete editor state: one frame "f1" with one layer "l1" holding one stroke. -/
def c1State : EditorState :=
  { project :=
      { frames := [{ id := "f1", frameNumber := 0, imageUrl := "bg",
                     layers := [{ id := "l1", name := "Layer 1", visible := true,
                                  strokes := [c1Stroke] }],
                     activeLayerId := some "l1", width := 720, height := 405 }],
        updatedAt := 0 },
    redoStacks := [] }

theorem undo_redo_roundtrip_witness :
    strokesAt c1State "f1" "l1" = some [c1Stroke] ∧ 1 ≤ [c1Stroke].length ∧
    (strokesAt ((fun t => handleRedoStroke "f1" "l1" 2 (handleUndoStroke "f1" "l1" 1 t))^[1]
        c1State) "f1" "l1" = some [c1Stroke] ∧
      strokesAt ((handleRedoStroke "f1" "l1" 2)^[1] ((handleUndoStroke "f1" "l1" 1)^[1]
        c1State)) "f1" "l1" = some [c1Stroke]) :=
  ⟨by decide, by decide,
    undo_redo_roundtrip c1State "f1" "l1" 1 1 2 [c1Stroke] (by decide) (by decide)⟩

/-- createLayer (`utils/project.ts` 4-9); the `uuidv4()` id is passed in. -/
def createLayer (id name : String) : DrawingLayer :=
  { id := id, name := name, visible := true, strokes := [] }

/-- ASCII lower-casing of one character, the effect of
`String.prototype.toLowerCase` on the layer names involved. -/
def jsToLowerChar (c : Char) : Char :=
  if 'A' ≤ c ∧ c ≤ 'Z' then Char.ofNat (c.toNat + 32) else c

/-- `s.trim().toLowerCase()` modelled on the character list: drop
whitespace from both ends, then lower-case. -/
def jsTrimToLower (s : String) : List Char :=
  ((s.data.dropWhile Char.isWhitespace).reverse.dropWhile Char.isWhitespace).reverse.map
    jsToLowerChar

/-- PROTECTED_LAYER_NAME / isProtectedLayer (`StageEditor.tsx` 26-28):
`(name ?? '').trim().toLowerCase() === 'layer 1'`. -/
def isProtectedLayer (name : Option String) : Bool :=
  jsTrimToLower (name.getD "") == "layer 1".data

/-- Scope argument of handleDeleteLayer / applyImageLayerToFrames. -/
inductive LayerScope
  | frame | all
deriving DecidableEq, Repr

/-- Per-frame body of the scope-'all' branch of handleDeleteLayer
(`App.tsx` 650-673): skip frames with a single layer, find the first layer
matching the id (or the exact name, when a non-empty name is supplied — the
JavaScript `layerName ?` truthiness test makes the empty string behave like
no name), remove it by position, and move the active layer to the one just
before the removed slot. -/
def deleteLayerFromFrameAll (layerId : String) (layerName : Option String)
    (frame : FrameData) : FrameData :=
  if frame.layers.length ≤ 1 then frame
  else
    match lookupIdx (fun layer => layer.id == layerId ||
        (match layerName with
         | some n => !n.isEmpty && layer.name == n
         | none => false)) frame.layers with
    | none => frame
    | some (layerIndex, target) =>
      let remainingLayers := frame.layers.eraseIdx layerIndex
      let fallbackIndex := layerIndex - 1
      let nextActiveLayerId :=
        if frame.activeLayerId == some target.id then
          match remainingLayers[fallbackIndex]? with
          | some layer => some layer.id
          | none =>
            match remainingLayers[0]? with
            | some layer => some layer.id
            | none => none
        else frame.activeLayerId
      { frame with layers := remainingLayers, activeLayerId := nextActiveLayerId }

/-- Whether the scope-'all' branch removes a layer from this frame (the
`removedAny` flag of `handleDeleteLayer`). -/
def deleteAllHits (layerId : String) (layerName : Option String) (frame : FrameData) : Bool :=
  1 < frame.layers.length &&
    (lookupIdx (fun layer => layer.id == layerId ||
        (match layerName with
         | some n => !n.isEmpty && layer.name == n
         | none => false)) frame.layers).isSome

/-- handleDeleteLayer (`App.tsx` 642-740), scope 'all': delete the first
matching layer from every frame that has more than one layer; when no frame
matched, the project is returned untouched, otherwise the frames are
replaced and the project keeps its other fields (`{ ...current, frames,
updatedAt }`). -/
def handleDeleteLayerAll (layerId : String) (layerName : Option String)
    (now : Nat) (p : AnimatorProject) : AnimatorProject :=
  if p.frames.any (deleteAllHits layerId layerName) then
    { p with
        frames := p.frames.map (deleteLayerFromFrameAll layerId layerName),
        updatedAt := now }
  else p

/-- handleDeleteLayer (`App.tsx` 642-740), scope 'frame': refuse when the
active frame has a single layer, otherwise remove every layer with the
given id from the active frame (`filter(layer => layer.id !== layerId)`)
and rebuild the project as `{ frames, updatedAt }` (dropping the optional
name/backgroundColor/audioUrl fields).  The boolean reports the `deleted`
flag of the handler. -/
def handleDeleteLayerFrame (activeFrameId : Option String) (layerId : String)
    (now : Nat) (p : AnimatorProject) : AnimatorProject × Bool :=
  match activeFrameId with
  | none => (p, false)
  | some afid =>
    match lookupIdx (fun fr => fr.id == afid) p.frames with
    | none => (p, false)
    | some (frameIndex, frame) =>
      if frame.layers.length ≤ 1 then (p, false)
      else
        match lookupIdx (fun layer => layer.id == layerId) frame.layers with
        | none => (p, false)
        | some (layerIndex, _) =>
          let remainingLayers := frame.layers.filter (fun layer => layer.id != layerId)
          let fallbackIndex := layerIndex - 1
          let nextActiveLayerId :=
            if frame.activeLayerId == some layerId then
              (remainingLayers[fallbackIndex]?).map (fun layer => layer.id)
            else frame.activeLayerId
          let updatedFrame := { frame with
            layers := remainingLayers,
            activeLayerId := nextActiveLayerId }
          ({ frames := p.frames.set frameIndex updatedFrame, updatedAt := now }, true)

/-- handleDeleteLayer at the editor-state level: scope 'frame' also drops
the `${activeFrameId}:${layerId}` redo-stack key when a layer was deleted. -/
def handleDeleteLayer (layerId : String) (scope : LayerScope) (layerName : Option String)
    (activeFrameId : Option String) (now : Nat) (st : EditorState) : EditorState :=
  match scope with
  | .all => { st with project := handleDeleteLayerAll layerId layerName now st.project }
  | .frame =>
    let (p, deleted) := handleDeleteLayerFrame activeFrameId layerId now st.project
    if deleted then
      { project := p,
        redoStacks := removeStack st.redoStacks
          (stackKey (activeFrameId.getD "") layerId) }
    else { st with project := p }

/-- The target filter of executeDeleteLayers (`StageEditor.tsx` 448-460):
the dialog only ever invokes `onDeleteLayer` for layers that are selected
and do not match the protected-name predicate. -/
def uiDeleteTargets (layers : List DrawingLayer) (selected : List String) :
    List DrawingLayer :=
  layers.filter (fun layer => selected.contains layer.id &&
    !(isProtectedLayer (some layer.name)))

lemma exists_getElem?_set (l : List FrameData) (i : Nat) (x : FrameData)
    (P : FrameData → Prop) (hi : i < l.length) (hx : P x) :
    ∃ fr', (l.set i x)[i]? = some fr' ∧ P fr' := by
  refine ⟨x, ?_, hx⟩
  rw [List.getElem?_set_self]
  simp [hi]

lemma mem_eraseIdx_of_ne {l : List α} {i : Nat} {a b : α}
    (ha : a ∈ l) (hi : l[i]? = some b) (hne : b ≠ a) : a ∈ l.eraseIdx i := by
  induction l generalizing i with
  | nil => simp at ha
  | cons x xs ih =>
    cases i with
    | zero =>
      simp only [List.getElem?_cons_zero, Option.some.injEq] at hi
      subst hi
      rcases List.mem_cons.mp ha with h | h
      · exact absurd h.symm hne
      · simpa [List.eraseIdx] using h
    | succ i =>
      simp only [List.getElem?_cons_succ] at hi
      rcases List.mem_cons.mp ha with h | h
      · simp [List.eraseIdx, h]
      · simpa [List.eraseIdx] using Or.inr (ih h hi)

/-- C5 counterexample: `handleDeleteLayer` itself performs no
protected-name check.  On a frame holding the protected layer "Layer 1"
(id "p1") and a second layer "Layer 2" (id "p2"), invoking the handler
with the protected layer's id removes it, in single-frame scope and in
all-frames scope alike. -/
def c5Protected : DrawingLayer := createLayer "p1" "Layer 1"

/-- Second, deletable layer of the C5 example frame. -/
def c5Other : DrawingLayer := createLayer "p2" "Layer 2"

/-- The single frame of the C5 example project. -/
def c5Frame : FrameData :=
  { id := "fr1", frameNumber := 0, imageUrl := "bg",
    layers := [c5Protected, c5Other],
    activeLayerId := some "p1", width := 720, height := 405 }

/-- One-frame project holding the protected layer and one other layer. -/
def c5Project : AnimatorProject :=
  { frames := [c5Frame], updatedAt := 0 }

/-- C5 is false as stated: the generic delete-layer handler deletes a layer
whose display name matches the protected-name predicate when it is given
that layer's id, in both scopes — the protection is not part of the
handler. -/
theorem protected_layer_deleted_by_handler :
    isProtectedLayer (some "Layer 1") = true ∧
    (handleDeleteLayerFrame (some "fr1") "p1" 1 c5Project).1.frames.map
      (fun fr => fr.layers) = [[c5Other]] ∧
    (handleDeleteLayerAll "p1" none 1 c5Project).frames.map
      (fun fr => fr.layers) = [[c5Other]] := by decide

/-- C5 amended: the protected-name check lives at the UI call sites, not in
the handler.  (a) `executeDeleteLayers` only ever passes layers that do not
match the protected-name predicate to `onDeleteLayer`; (b, c) any deletion
whose target id differs from a protected layer's id — and, for scope 'all',
whose name argument is not itself a protected name — leaves that protected
layer in its frame's layer list, in both scopes. -/
theorem protected_layer_preserved_by_ui_calls :
    (∀ (layers : List DrawingLayer) (selected : List String) (l : DrawingLayer),
      l ∈ uiDeleteTargets layers selected → isProtectedLayer (some l.name) = false) ∧
    (∀ (afid : Option String) (lid : String) (now : Nat) (p : AnimatorProject)
      (i : Nat) (fr : FrameData) (pl : DrawingLayer),
      p.frames[i]? = some fr → pl ∈ fr.layers →
      isProtectedLayer (some pl.name) = true → pl.id ≠ lid →
      ∃ fr', (handleDeleteLayerFrame afid lid now p).1.frames[i]? = some fr' ∧
        pl ∈ fr'.layers) ∧
    (∀ (lid : String) (lname : Option String) (now : Nat) (p : AnimatorProject)
      (i : Nat) (fr : FrameData) (pl : DrawingLayer),
      p.frames[i]? = some fr → pl ∈ fr.layers →
      isProtectedLayer (some pl.name) = true → pl.id ≠ lid →
      (∀ n, lname = some n → isProtectedLayer (some n) = false) →
      ∃ fr', (handleDeleteLayerAll lid lname now p).frames[i]? = some fr' ∧
        pl ∈ fr'.layers) := by
  refine ⟨?_, ?_, ?_⟩
  · intro layers selected l hl
    have := List.mem_filter.mp hl
    simp only [Bool.and_eq_true, Bool.not_eq_true'] at this
    exact this.2.2
  · intro afid lid now p i fr pl hget hmem hprot hne
    unfold handleDeleteLayerFrame
    rcases afid with _ | afid
    · exact ⟨fr, hget, hmem⟩
    rcases hfa : lookupIdx (fun x => x.id == afid) p.frames with _ | ⟨frameIndex, frame⟩
    · exact ⟨fr, by simpa [hfa] using hget, hmem⟩
    simp only [hfa]
    by_cases hlen : frame.layers.length ≤ 1
    · simp only [hlen, if_pos]
      exact ⟨fr, hget, hmem⟩
    simp only [hlen, if_neg, not_false_iff]
    rcases hli : lookupIdx (fun layer => layer.id == lid) frame.layers with _ | ⟨layerIndex, tgt⟩
    · simp only [hli]
      exact ⟨fr, hget, hmem⟩
    simp only [hli]
    by_cases hidx : frameIndex = i
    · subst hidx
      have hgf : p.frames[frameIndex]? = some frame := (lookupIdx_getElem hfa).1
      rw [hget] at hgf
      have hfr : fr = frame := Option.some.inj hgf
      subst hfr
      apply exists_getElem?_set
      · exact (List.getElem?_eq_some_iff.mp hget).1
      · show pl ∈ fr.layers.filter (fun layer => layer.id != lid)
        refine List.mem_filter.mpr ⟨hmem, ?_⟩
        simpa using hne
    · refine ⟨fr, ?_, hmem⟩
      show (p.frames.set frameIndex _)[i]? = some fr
      rw [List.getElem?_set_ne hidx]
      exact hget
  · intro lid lname now p i fr pl hget hmem hprot hne hname
    unfold handleDeleteLayerAll
    by_cases hany : p.frames.any (deleteAllHits lid lname)
    · simp only [hany, if_pos]
      refine ⟨deleteLayerFromFrameAll lid lname fr, ?_, ?_⟩
      · simp [List.getElem?_map, hget]
      · unfold deleteLayerFromFrameAll
        by_cases hlen : fr.layers.length ≤ 1
        · simpa [hlen] using hmem
        simp only [hlen, if_neg, not_false_iff]
        rcases hli : lookupIdx (fun layer => layer.id == lid ||
            (match lname with
             | some n => !n.isEmpty && layer.name == n
             | none => false)) fr.layers with _ | ⟨layerIndex, tgt⟩
        · simp only [hli]
          exact hmem
        simp only [hli]
        have htgt : tgt ≠ pl := by
          intro heq
          subst heq
          have hp := (lookupIdx_getElem hli).2
          simp only [Bool.or_eq_true, beq_iff_eq] at hp
          rcases hp with h | h
          · exact hne h
          · rcases lname with _ | n
            · simp at h
            · simp only [Bool.and_eq_true, beq_iff_eq] at h
              have hfalse := hname n rfl
              rw [← h.2] at hfalse
              rw [hprot] at hfalse
              simp at hfalse
        exact mem_eraseIdx_of_ne hmem (lookupIdx_getElem hli).1 htgt
    · simp only [hany, if_neg, not_false_iff]
      exact ⟨fr, hget, hmem⟩

theorem protected_layer_preserved_witness :
    c5Other ∈ uiDeleteTargets [c5Protected, c5Other] ["p2"] ∧
    isProtectedLayer (some c5Other.name) = false ∧
    (∃ fr', (handleDeleteLayerFrame (some "fr1") "p2" 1 c5Project).1.frames[0]? = some fr' ∧
      c5Protected ∈ fr'.layers) ∧
    (∃ fr', (handleDeleteLayerAll "p2" (some "Layer 2") 1 c5Project).frames[0]? = some fr' ∧
      c5Protected ∈ fr'.layers) :=
  ⟨by decide,
    protected_layer_preserved_by_ui_calls.1 [c5Protected, c5Other] ["p2"] c5Other (by decide),
    protected_layer_preserved_by_ui_calls.2.1 (some "fr1") "p2" 1 c5Project 0
      c5Frame c5Protected (by decide) (by decide) (by decide) (by decide),
    protected_layer_preserved_by_ui_calls.2.2 "p2" (some "Layer 2") 1 c5Project 0
      c5Frame c5Protected (by decide) (by decide) (by decide) (by decide)
      (by intro n hn; injection hn with h; rw [← h]; decide)⟩

/-- handleAddLayer (`App.tsx` 758-782): append a fresh drawing layer named
`Layer ${n+1}` to the active frame and make it active. -/
def handleAddLayer (activeFrameId : Option String) (newId : String) (now : Nat)
    (p : AnimatorProject) : AnimatorProject :=
  match activeFrameId with
  | none => p
  | some afid =>
    match lookupIdx (fun fr => fr.id == afid) p.frames with
    | none => p
    | some (frameIndex, frame) =>
      let newLayer := createLayer newId ("Layer " ++ toString (frame.layers.length + 1))
      let updatedFrame := { frame with
        layers := frame.layers ++ [newLayer],
        activeLayerId := some newLayer.id }
      { frames := p.frames.set frameIndex updatedFrame, updatedAt := now }

/-- handleSelectLayer (`App.tsx` 784-802). -/
def handleSelectLayer (activeFrameId : Option String) (layerId : String) (now : Nat)
    (p : AnimatorProject) : AnimatorProject :=
  match activeFrameId with
  | none => p
  | some afid =>
    match lookupIdx (fun fr => fr.id == afid) p.frames with
    | none => p
    | some (frameIndex, frame) =>
      if frame.activeLayerId == some layerId then p
      else
        { frames := p.frames.set frameIndex { frame with activeLayerId := some layerId },
          updatedAt := now }

/-- handleToggleLayerVisibility (`App.tsx` 928-949). -/
def handleToggleLayerVisibility (activeFrameId : Option String) (layerId : String)
    (now : Nat) (p : AnimatorProject) : AnimatorProject :=
  match activeFrameId with
  | none => p
  | some afid =>
    match lookupIdx (fun fr => fr.id == afid) p.frames with
    | none => p
    | some (frameIndex, frame) =>
      let updatedLayers := frame.layers.map (fun layer =>
        if layer.id == layerId then { layer with visible := !layer.visible } else layer)
      { frames := p.frames.set frameIndex { frame with layers := updatedLayers },
        updatedAt := now }

/-- cloneVisibleImageLayers (`utils/project.ts` 11-21): first occurrence of
every distinct image url across all frames, in encounter order. -/
def cloneVisibleImageLayers (frames : List FrameData) : List DrawingLayer :=
  frames.foldl (fun seen frame =>
    frame.layers.foldl (fun seen layer =>
      match layer.imageUrl with
      | some url =>
        if seen.any (fun l => l.imageUrl == some url) then seen else seen ++ [layer]
      | none => seen) seen) []

/-- JavaScript `Array.prototype.splice(i, 0, x)`: insert at the index,
clamped to the end of the array. -/
def spliceInsert (x : α) : Nat → List α → List α
  | 0, l => x :: l
  | _ + 1, [] => [x]
  | n + 1, a :: l => a :: spliceInsert x n l

/-- `frames.map((frame, index) => ({ ...frame, frameNumber: index }))`. -/
def renumberFrom : Nat → List FrameData → List FrameData
  | _, [] => []
  | i, fr :: rest => { fr with frameNumber := i } :: renumberFrom (i + 1) rest

/-- `map` with the element index, as used for the id-supplied embeddings. -/
def mapWithIdx (f : Nat → α → β) : Nat → List α → List β
  | _, [] => []
  | i, a :: rest => f i a :: mapWithIdx f (i + 1) rest

/-- Direction argument of handleInsertFrame. -/
inductive InsertDirection
  | left | right
deriving DecidableEq, Repr

/-- handleInsertFrame (`App.tsx` 978-1024): build a frame next to the
source frame holding one blank "Layer 1" plus one hidden copy of every
distinct image layer in the project, splice it in, and renumber. -/
def handleInsertFrame (frameId : String) (direction : InsertDirection)
    (newFrameId blankId : String) (imgIds : Nat → String) (now : Nat)
    (p : AnimatorProject) : AnimatorProject :=
  if p.frames.isEmpty then p
  else
    match lookupIdx (fun fr => fr.id == frameId) p.frames with
    | none => p
    | some (sourceIndex, sourceFrame) =>
      let imagePalette := cloneVisibleImageLayers p.frames
      let blankLayer := createLayer blankId "Layer 1"
      let imageLayers := mapWithIdx (fun i layer =>
        { createLayer (imgIds i) layer.name with
          imageUrl := layer.imageUrl, visible := false }) 0 imagePalette
      let newFrame : FrameData :=
        { id := newFrameId, frameNumber := sourceIndex, imageUrl := sourceFrame.imageUrl,
          layers := blankLayer :: imageLayers, activeLayerId := some blankLayer.id,
          width := sourceFrame.width, height := sourceFrame.height }
      let insertIndex := match direction with
        | .left => sourceIndex
        | .right => sourceIndex + 1
      let frames := spliceInsert newFrame insertIndex p.frames
      { frames := renumberFrom 0 frames, updatedAt := now }

/-- handleDeleteFrame (`App.tsx` 1026-1053): refuse on the last frame,
otherwise remove the frame and renumber. -/
def handleDeleteFrame (frameId : String) (now : Nat) (p : AnimatorProject) :
    AnimatorProject :=
  if p.frames.length ≤ 1 then p
  else
    match lookupIdx (fun fr => fr.id == frameId) p.frames with
    | none => p
    | some _ =>
      let frames := p.frames.filter (fun fr => fr.id != frameId)
      { frames := renumberFrom 0 frames, updatedAt := now }

/-- Per-frame body of applyImageLayerToFrames (`utils/project.ts` 29-55). -/
def applyImageLayerToFrame (targetFrameId dataUrl : String) (scope : LayerScope)
    (newId : String) (frame : FrameData) : FrameData :=
  let shouldEnable : Bool := (scope == LayerScope.all) || (frame.id == targetFrameId)
  let hasImageLayer := frame.layers.any (fun layer => layer.imageUrl == some dataUrl)
  let updatedLayers := frame.layers.map (fun layer =>
    if layer.imageUrl == some dataUrl then { layer with visible := shouldEnable } else layer)
  if hasImageLayer then { frame with layers := updatedLayers }
  else
    let imageLayer := { createLayer newId ("Image " ++ toString (frame.layers.length + 1)) with
      imageUrl := some dataUrl, visible := shouldEnable }
    { frame with layers := updatedLayers ++ [imageLayer] }

/-- applyImageLayerToFrames (`utils/project.ts` 23-56): on every frame of
the project, flip the visibility of any layer carrying this exact url to
the scope-determined value, or append a new image layer with that
visibility. -/
def applyImageLayerToFrames (frames : List FrameData) (targetFrameId dataUrl : String)
    (scope : LayerScope) (newIds : Nat → String) : List FrameData :=
  mapWithIdx (fun i frame =>
    applyImageLayerToFrame targetFrameId dataUrl scope (newIds i) frame) 0 frames

/-- applyImageToFrames (`App.tsx` 804-820): the project-level wrapper. -/
def applyImageToFrames (activeFrameId : Option String) (dataUrl : String)
    (scope : LayerScope) (newIds : Nat → String) (now : Nat) (p : AnimatorProject) :
    AnimatorProject :=
  match activeFrameId with
  | none => p
  | some afid =>
    { frames := applyImageLayerToFrames p.frames afid dataUrl scope newIds,
      updatedAt := now }

/-- `frames[i].frameNumber == i` for every index, checked from a running
start index. -/
def numberedFrom : Nat → List FrameData → Bool
  | _, [] => true
  | i, fr :: rest => fr.frameNumber == i && numberedFrom (i + 1) rest

/-- The spec numbering invariant: every frame's frameNumber equals its
position in the frames list. -/
def framesNumbered (p : AnimatorProject) : Bool :=
  numberedFrom 0 p.frames

lemma numberedFrom_renumberFrom : ∀ (i : Nat) (l : List FrameData),
    numberedFrom i (renumberFrom i l) = true := by
  intro i l
  induction l generalizing i with
  | nil => rfl
  | cons fr rest ih => simp [renumberFrom, numberedFrom, ih]

/-- C3: starting from a project whose frames are numbered
`frames[i].frameNumber == i`, both `insertFrame` and `deleteFrame` yield a
project that again satisfies the numbering invariant (both renumber all
frames on success, and refuse without touching the project otherwise). -/
theorem insert_delete_frames_numbered (p : AnimatorProject) (fid : String)
    (dir : InsertDirection) (nfid bid : String) (imgIds : Nat → String)
    (now1 now2 : Nat) (h : framesNumbered p = true) :
    framesNumbered (handleInsertFrame fid dir nfid bid imgIds now1 p) = true ∧
    framesNumbered (handleDeleteFrame fid now2 p) = true := by
  constructor
  · unfold handleInsertFrame
    by_cases he : p.frames.isEmpty
    · simpa [he] using h
    simp only [he, Bool.false_eq_true, if_false]
    rcases hf : lookupIdx (fun fr => fr.id == fid) p.frames with _ | ⟨si, sf⟩
    · simpa [hf] using h
    simp only [hf]
    exact numberedFrom_renumberFrom 0 _
  · unfold handleDeleteFrame
    by_cases hl : p.frames.length ≤ 1
    · simpa [hl] using h
    simp only [hl, if_false]
    rcases hf : lookupIdx (fun fr => fr.id == fid) p.frames with _ | x
    · simpa [hf] using h
    simp only [hf]
    exact numberedFrom_renumberFrom 0 _

/-- Two-frame numbered project used to witness C3. -/
def c3Project : AnimatorProject :=
  { frames :=
      [{ id := "f1", frameNumber := 0, imageUrl := "bg1",
         layers := [createLayer "l1" "Layer 1"], activeLayerId := some "l1",
         width := 720, height := 405 },
       { id := "f2", frameNumber := 1, imageUrl := "bg2",
         layers := [createLayer "l2" "Layer 1"], activeLayerId := some "l2",
         width := 720, height := 405 }],
    updatedAt := 0 }

theorem insert_delete_frames_numbered_witness :
    framesNumbered c3Project = true ∧
    (framesNumbered (handleInsertFrame "f1" .right "nf" "nb" (fun i => "im" ++ toString i)
        7 c3Project) = true ∧
      framesNumbered (handleDeleteFrame "f1" 8 c3Project) = true) :=
  ⟨by decide,
    insert_delete_frames_numbered c3Project "f1" .right "nf" "nb"
      (fun i => "im" ++ toString i) 7 8 (by decide)⟩

/-- One project-editing interaction of the app, with the `uuidv4()` ids it
consumes passed explicitly. -/
inductive EditOp
  | commit (frameId layerId : String) (stroke : DrawingStroke)
  | undo (frameId layerId : String)
  | redo (frameId layerId : String)
  | addLayer (activeFrameId : Option String) (newId : String)
  | selectLayer (activeFrameId : Option String) (layerId : String)
  | toggleVisibility (activeFrameId : Option String) (layerId : String)
  | deleteLayer (layerId : String) (scope : LayerScope) (layerName : Option String)
      (activeFrameId : Option String)
  | insertFrame (frameId : String) (direction : InsertDirection)
      (newFrameId blankId : String) (imgIds : Nat → String)
  | deleteFrame (frameId : String)
  | applyImage (activeFrameId : Option String) (dataUrl : String) (scope : LayerScope)
      (newIds : Nat → String)

/-- Dispatch of an editing interaction on the editor state. -/
def applyEdit (op : EditOp) (now : Nat) (st : EditorState) : EditorState :=
  match op with
  | .commit f l s => handleCommitStroke f l s now st
  | .undo f l => handleUndoStroke f l now st
  | .redo f l => handleRedoStroke f l now st
  | .addLayer afid nid => { st with project := handleAddLayer afid nid now st.project }
  | .selectLayer afid lid => { st with project := handleSelectLayer afid lid now st.project }
  | .toggleVisibility afid lid =>
    { st with project := handleToggleLayerVisibility afid lid now st.project }
  | .deleteLayer lid scope lname afid => handleDeleteLayer lid scope lname afid now st
  | .insertFrame fid dir nfid bid ids =>
    { st with project := handleInsertFrame fid dir nfid bid ids now st.project }
  | .deleteFrame fid => { st with project := handleDeleteFrame fid now st.project }
  | .applyImage afid url scope ids =>
    { st with project := applyImageToFrames afid url scope ids now st.project }

/-- Every frame of the project has at least one layer. -/
def allFramesNonemptyLayers (p : AnimatorProject) : Bool :=
  p.frames.all (fun fr => !fr.layers.isEmpty)

lemma mem_of_getElem? {l : List α} {i : Nat} {a : α} (h : l[i]? = some a) : a ∈ l := by
  have := List.getElem?_eq_some_iff.mp h
  exact this.2 ▸ List.getElem_mem this.1

lemma all_nonempty_of_mem {frames : List FrameData}
    (h : frames.all (fun fr => !fr.layers.isEmpty) = true) {fr : FrameData}
    (hm : fr ∈ frames) : fr.layers ≠ [] := by
  have := List.all_eq_true.mp h fr hm
  simpa using this

lemma all_nonempty_intro {frames : List FrameData}
    (h : ∀ fr ∈ frames, fr.layers ≠ []) :
    frames.all (fun fr => !fr.layers.isEmpty) = true := by
  rw [List.all_eq_true]
  intro fr hm
  simpa using h fr hm

lemma mem_renumberFrom {l : List FrameData} {i : Nat} {fr : FrameData}
    (h : fr ∈ renumberFrom i l) : ∃ fr0 ∈ l, fr.layers = fr0.layers := by
  induction l generalizing i with
  | nil => simp [renumberFrom] at h
  | cons a rest ih =>
    rcases List.mem_cons.mp h with h | h
    · exact ⟨a, List.mem_cons_self .., by rw [h]⟩
    · obtain ⟨fr0, hm, hl⟩ := ih h
      exact ⟨fr0, List.mem_cons_of_mem _ hm, hl⟩

lemma mem_spliceInsert {l : List α} {i : Nat} {x y : α}
    (h : y ∈ spliceInsert x i l) : y = x ∨ y ∈ l := by
  induction l generalizing i with
  | nil =>
    cases i with
    | zero => simpa [spliceInsert] using h
    | succ i => simpa [spliceInsert] using h
  | cons a rest ih =>
    cases i with
    | zero =>
      rcases List.mem_cons.mp h with h | h
      · exact Or.inl h
      · exact Or.inr h
    | succ i =>
      rcases List.mem_cons.mp h with h | h
      · exact Or.inr (h ▸ List.mem_cons_self ..)
      · rcases ih h with h | h
        · exact Or.inl h
        · exact Or.inr (List.mem_cons_of_mem _ h)

lemma mem_mapWithIdx {f : Nat → α → β} {i : Nat} {l : List α} {b : β}
    (h : b ∈ mapWithIdx f i l) : ∃ j a, a ∈ l ∧ b = f j a := by
  induction l generalizing i with
  | nil => simp [mapWithIdx] at h
  | cons x rest ih =>
    rcases List.mem_cons.mp h with h | h
    · exact ⟨i, x, List.mem_cons_self .., h⟩
    · obtain ⟨j, a, hm, hb⟩ := ih h
      exact ⟨j, a, List.mem_cons_of_mem _ hm, hb⟩

lemma length_filter_ne_of_nodup {l : List DrawingLayer} {c : String}
    (h : (l.map (fun x => x.id)).Nodup) :
    l.length ≤ (l.filter (fun x => x.id != c)).length + 1 := by
  induction l with
  | nil => simp
  | cons a t ih =>
    rw [List.map_cons, List.nodup_cons] at h
    by_cases hc : a.id == c
    · have hfil : t.filter (fun x => x.id != c) = t := by
        refine List.filter_eq_self.mpr ?_
        intro x hx
        have : x.id ≠ c := by
          intro heq
          apply h.1
          rw [← (by simpa using hc : a.id = c)] at heq
          exact heq ▸ List.mem_map.mpr ⟨x, hx, heq.symm ▸ rfl⟩
        simpa using this
      have hbne : (a.id != c) = false := by
        simp only [bne]
        simpa using hc
      simp only [List.filter_cons, hbne, Bool.false_eq_true, if_false]
      rw [hfil]
      simp
    · simp only [List.filter_cons]
      have hbne : (a.id != c) = true := by simpa using hc
      simp only [hbne, if_true, List.length_cons]
      have := ih h.2
      omega

lemma set_ne_nil {l : List α} {i : Nat} {a : α} (h : l ≠ []) : l.set i a ≠ [] := by
  intro hnil
  apply h
  have := congrArg List.length hnil
  rw [List.length_set] at this
  exact List.length_eq_zero.mp this

lemma map_ne_nil {l : List α} {f : α → β} (h : l ≠ []) : l.map f ≠ [] := by
  intro hnil
  exact h (by simpa using hnil)

lemma eraseIdx_ne_nil {l : List α} {i : Nat} (hi : i < l.length) (h2 : 2 ≤ l.length) :
    l.eraseIdx i ≠ [] := by
  intro hnil
  have hlen := congrArg List.length hnil
  rw [List.length_eraseIdx] at hlen
  simp only [hi, if_true, List.length_nil] at hlen
  omega

lemma nonempty_commit (f l : String) (s : DrawingStroke) (now : Nat) (st : EditorState)
    (h : allFramesNonemptyLayers st.project = true) :
    allFramesNonemptyLayers (handleCommitStroke f l s now st).project = true := by
  unfold handleCommitStroke allFramesNonemptyLayers
  apply all_nonempty_intro
  intro fr' hm
  obtain ⟨fr, hfr, rfl⟩ := List.mem_map.mp hm
  by_cases hid : fr.id == f
  · simp only [hid, if_true]
    exact map_ne_nil (all_nonempty_of_mem h hfr)
  · simp only [hid, Bool.false_eq_true, if_false]
    exact all_nonempty_of_mem h hfr

lemma nonempty_undo (f l : String) (now : Nat) (st : EditorState)
    (h : allFramesNonemptyLayers st.project = true) :
    allFramesNonemptyLayers (handleUndoStroke f l now st).project = true := by
  unfold handleUndoStroke
  split
  · exact h
  · rename_i fi frame hf
    split
    · exact h
    · rename_i li ly hl
      split
      · exact h
      · rename_i x hx
        unfold allFramesNonemptyLayers
        apply all_nonempty_intro
        intro fr' hm
        rcases List.mem_or_eq_of_mem_set hm with hmem | rfl
        · exact all_nonempty_of_mem h hmem
        · have hfm : frame ∈ st.project.frames := mem_of_getElem? (lookupIdx_getElem hf).1
          exact set_ne_nil (all_nonempty_of_mem h hfm)

lemma nonempty_redo (f l : String) (now : Nat) (st : EditorState)
    (h : allFramesNonemptyLayers st.project = true) :
    allFramesNonemptyLayers (handleRedoStroke f l now st).project = true := by
  unfold handleRedoStroke
  rcases hx : (getStack st.redoStacks (stackKey f l)).getLast? with _ | x
  · simp only [hx]
    exact h
  simp only [hx]
  rcases hf : lookupIdx (fun fr => fr.id == f) st.project.frames with _ | ⟨fi, frame⟩
  · simp only [hf]
    exact h
  simp only [hf]
  rcases hl : lookupIdx (fun y => y.id == l) frame.layers with _ | ⟨li, ly⟩
  · simp only [hl]
    exact h
  simp only [hl]
  unfold allFramesNonemptyLayers
  apply all_nonempty_intro
  intro fr' hm
  rcases List.mem_or_eq_of_mem_set hm with hmem | rfl
  · exact all_nonempty_of_mem h hmem
  · have hfm : frame ∈ st.project.frames := mem_of_getElem? (lookupIdx_getElem hf).1
    exact set_ne_nil (all_nonempty_of_mem h hfm)

lemma nonempty_addLayer (afid : Option String) (nid : String) (now : Nat)
    (p : AnimatorProject) (h : allFramesNonemptyLayers p = true) :
    allFramesNonemptyLayers (handleAddLayer afid nid now p) = true := by
  unfold handleAddLayer
  split
  · exact h
  · split
    · exact h
    · unfold allFramesNonemptyLayers
      apply all_nonempty_intro
      intro fr' hm
      rcases List.mem_or_eq_of_mem_set hm with hmem | rfl
      · exact all_nonempty_of_mem h hmem
      · simp

lemma nonempty_selectLayer (afid : Option String) (lid : String) (now : Nat)
    (p : AnimatorProject) (h : allFramesNonemptyLayers p = true) :
    allFramesNonemptyLayers (handleSelectLayer afid lid now p) = true := by
  unfold handleSelectLayer
  split
  · exact h
  · split
    · exact h
    · rename_i fi frame hf
      split
      · exact h
      · unfold allFramesNonemptyLayers
        apply all_nonempty_intro
        intro fr' hm
        rcases List.mem_or_eq_of_mem_set hm with hmem | rfl
        · exact all_nonempty_of_mem h hmem
        · have hfm : frame ∈ p.frames := mem_of_getElem? (lookupIdx_getElem hf).1
          show frame.layers ≠ []
          exact all_nonempty_of_mem h hfm

lemma nonempty_toggle (afid : Option String) (lid : String) (now : Nat)
    (p : AnimatorProject) (h : allFramesNonemptyLayers p = true) :
    allFramesNonemptyLayers (handleToggleLayerVisibility afid lid now p) = true := by
  unfold handleToggleLayerVisibility
  split
  · exact h
  · split
    · exact h
    · rename_i fi frame hf
      unfold allFramesNonemptyLayers
      apply all_nonempty_intro
      intro fr' hm
      rcases List.mem_or_eq_of_mem_set hm with hmem | rfl
      · exact all_nonempty_of_mem h hmem
      · have hfm : frame ∈ p.frames := mem_of_getElem? (lookupIdx_getElem hf).1
        exact map_ne_nil (all_nonempty_of_mem h hfm)

lemma nonempty_deleteLayerFrame (afid : Option String) (lid : String) (now : Nat)
    (p : AnimatorProject)
    (hnd : ∀ fr ∈ p.frames, (fr.layers.map (fun x => x.id)).Nodup)
    (h : allFramesNonemptyLayers p = true) :
    allFramesNonemptyLayers (handleDeleteLayerFrame afid lid now p).1 = true := by
  unfold handleDeleteLayerFrame
  split
  · exact h
  rename_i afid'
  split
  · exact h
  rename_i fi frame hf
  by_cases hlen : frame.layers.length ≤ 1
  · simp only [if_pos hlen]
    exact h
  simp only [if_neg hlen]
  split
  · exact h
  rename_i li tgt hl
  unfold allFramesNonemptyLayers
  apply all_nonempty_intro
  intro fr' hm
  rcases List.mem_or_eq_of_mem_set hm with hmem | rfl
  · exact all_nonempty_of_mem h hmem
  · show frame.layers.filter (fun layer => layer.id != lid) ≠ []
    have hfm : frame ∈ p.frames := mem_of_getElem? (lookupIdx_getElem hf).1
    have hcount := length_filter_ne_of_nodup (c := lid) (hnd frame hfm)
    intro hnil
    rw [hnil] at hcount
    simp only [List.length_nil] at hcount
    omega

lemma nonempty_deleteFromFrameAll (lid : String) (lname : Option String) (fr : FrameData)
    (h : fr.layers ≠ []) : (deleteLayerFromFrameAll lid lname fr).layers ≠ [] := by
  unfold deleteLayerFromFrameAll
  by_cases hlen : fr.layers.length ≤ 1
  · simp only [if_pos hlen]
    exact h
  simp only [if_neg hlen]
  split
  · exact h
  rename_i li tgt hl
  show fr.layers.eraseIdx li ≠ []
  have hi : li < fr.layers.length :=
    (List.getElem?_eq_some_iff.mp (lookupIdx_getElem hl).1).1
  exact eraseIdx_ne_nil hi (by omega)

lemma nonempty_deleteLayerAll (lid : String) (lname : Option String) (now : Nat)
    (p : AnimatorProject) (h : allFramesNonemptyLayers p = true) :
    allFramesNonemptyLayers (handleDeleteLayerAll lid lname now p) = true := by
  unfold handleDeleteLayerAll
  by_cases hany : p.frames.any (deleteAllHits lid lname) = true
  · rw [if_pos hany]
    unfold allFramesNonemptyLayers
    apply all_nonempty_intro
    intro fr' hm
    obtain ⟨fr, hfr, rfl⟩ := List.mem_map.mp hm
    exact nonempty_deleteFromFrameAll lid lname fr (all_nonempty_of_mem h hfr)
  · rw [if_neg hany]
    exact h

lemma nonempty_insertFrame (fid : String) (dir : InsertDirection) (nfid bid : String)
    (ids : Nat → String) (now : Nat) (p : AnimatorProject)
    (h : allFramesNonemptyLayers p = true) :
    allFramesNonemptyLayers (handleInsertFrame fid dir nfid bid ids now p) = true := by
  unfold handleInsertFrame
  by_cases he : p.frames.isEmpty = true
  · rw [if_pos he]
    exact h
  rw [if_neg he]
  split
  · exact h
  rename_i si sf hsf
  unfold allFramesNonemptyLayers
  apply all_nonempty_intro
  intro fr' hm
  obtain ⟨fr0, hm0, hl0⟩ := mem_renumberFrom hm
  rw [hl0]
  rcases mem_spliceInsert hm0 with rfl | hmem
  · simp
  · exact all_nonempty_of_mem h hmem

lemma nonempty_deleteFrame (fid : String) (now : Nat) (p : AnimatorProject)
    (h : allFramesNonemptyLayers p = true) :
    allFramesNonemptyLayers (handleDeleteFrame fid now p) = true := by
  unfold handleDeleteFrame
  by_cases hl : p.frames.length ≤ 1
  · rw [if_pos hl]
    exact h
  rw [if_neg hl]
  split
  · exact h
  unfold allFramesNonemptyLayers
  apply all_nonempty_intro
  intro fr' hm
  obtain ⟨fr0, hm0, hl0⟩ := mem_renumberFrom hm
  rw [hl0]
  exact all_nonempty_of_mem h (List.mem_of_mem_filter hm0)

lemma nonempty_applyImageFrame (t u : String) (scope : LayerScope) (nid : String)
    (fr : FrameData) (h : fr.layers ≠ []) :
    (applyImageLayerToFrame t u scope nid fr).layers ≠ [] := by
  unfold applyImageLayerToFrame
  by_cases hhas : fr.layers.any (fun layer => layer.imageUrl == some u) = true
  · simp only [hhas, if_true]
    exact map_ne_nil h
  · have hhas' : fr.layers.any (fun layer => layer.imageUrl == some u) = false := by
      simpa using hhas
    simp only [hhas', Bool.false_eq_true, if_false]
    simp

lemma nonempty_applyImage (afid : Option String) (url : String) (scope : LayerScope)
    (ids : Nat → String) (now : Nat) (p : AnimatorProject)
    (h : allFramesNonemptyLayers p = true) :
    allFramesNonemptyLayers (applyImageToFrames afid url scope ids now p) = true := by
  unfold applyImageToFrames
  split
  · exact h
  rename_i afid'
  unfold allFramesNonemptyLayers applyImageLayerToFrames
  apply all_nonempty_intro
  intro fr' hm
  obtain ⟨j, fr0, hm0, rfl⟩ := mem_mapWithIdx hm
  exact nonempty_applyImageFrame afid' url scope (ids j) fr0 (all_nonempty_of_mem h hm0)

/-- C4: every frame keeps at least one layer across all modelled editing
operations (on states whose per-frame layer ids are distinct, as produced
by `uuidv4()`); moreover deleting the sole remaining layer is refused: in
single-frame scope the whole project is returned untouched with the
`deleted` flag false, and in all-frames scope any frame with a single
layer is skipped and returned unchanged. -/
theorem layers_nonempty_invariant :
    (∀ (op : EditOp) (now : Nat) (st : EditorState),
      (∀ fr ∈ st.project.frames, (fr.layers.map (fun x => x.id)).Nodup) →
      allFramesNonemptyLayers st.project = true →
      allFramesNonemptyLayers (applyEdit op now st).project = true) ∧
    (∀ (afid lid : String) (now : Nat) (p : AnimatorProject) (fi : Nat) (frame : FrameData),
      lookupIdx (fun fr => fr.id == afid) p.frames = some (fi, frame) →
      frame.layers.length ≤ 1 →
      handleDeleteLayerFrame (some afid) lid now p = (p, false)) ∧
    (∀ (lid : String) (lname : Option String) (fr : FrameData),
      fr.layers.length ≤ 1 → deleteLayerFromFrameAll lid lname fr = fr) := by
  refine ⟨?_, ?_, ?_⟩
  · intro op now st hnd h
    cases op with
    | commit f l s => exact nonempty_commit f l s now st h
    | undo f l => exact nonempty_undo f l now st h
    | redo f l => exact nonempty_redo f l now st h
    | addLayer afid nid => exact nonempty_addLayer afid nid now st.project h
    | selectLayer afid lid => exact nonempty_selectLayer afid lid now st.project h
    | toggleVisibility afid lid => exact nonempty_toggle afid lid now st.project h
    | deleteLayer lid scope lname afid =>
      cases scope with
      | all => exact nonempty_deleteLayerAll lid lname now st.project h
      | frame =>
        have hp : (applyEdit (.deleteLayer lid .frame lname afid) now st).project =
            (handleDeleteLayerFrame afid lid now st.project).1 := by
          show (handleDeleteLayer lid .frame lname afid now st).project = _
          unfold handleDeleteLayer
          rcases hdl : handleDeleteLayerFrame afid lid now st.project with ⟨pr, deleted⟩
          cases deleted <;> simp [hdl]
        rw [hp]
        exact nonempty_deleteLayerFrame afid lid now st.project hnd h
    | insertFrame fid dir nfid bid ids =>
      exact nonempty_insertFrame fid dir nfid bid ids now st.project h
    | deleteFrame fid => exact nonempty_deleteFrame fid now st.project h
    | applyImage afid url scope ids =>
      exact nonempty_applyImage afid url scope ids now st.project h
  · intro afid lid now p fi frame hf hlen
    unfold handleDeleteLayerFrame
    simp only [hf, if_pos hlen]
  · intro lid lname fr hlen
    unfold deleteLayerFromFrameAll
    simp only [if_pos hlen]

/-- Single-layer frame used to witness C4. -/
def c4Frame : FrameData :=
  { id := "f1", frameNumber := 0, imageUrl := "bg",
    layers := [createLayer "l1" "Layer 1"],
    activeLayerId := some "l1", width := 720, height := 405 }

/-- Single-frame, single-layer editor state used to witness C4. -/
def c4State : EditorState :=
  { project := { frames := [c4Frame], updatedAt := 0 },
    redoStacks := [] }

theorem layers_nonempty_invariant_witness :
    (∀ fr ∈ c4State.project.frames, (fr.layers.map (fun x => x.id)).Nodup) ∧
    allFramesNonemptyLayers c4State.project = true ∧
    allFramesNonemptyLayers
      (applyEdit (.deleteLayer "l1" .frame none (some "f1")) 1 c4State).project = true ∧
    handleDeleteLayerFrame (some "f1") "l1" 1 c4State.project = (c4State.project, false) ∧
    deleteLayerFromFrameAll "l1" none c4Frame = c4Frame :=
  ⟨by decide, by decide,
    layers_nonempty_invariant.1 (.deleteLayer "l1" .frame none (some "f1")) 1 c4State
      (by decide) (by decide),
    layers_nonempty_invariant.2.1 "f1" "l1" 1 c4State.project 0 c4Frame
      (by decide) (by decide),
    layers_nonempty_invariant.2.2 "l1" none c4Frame (by decide)⟩

lemma layer_set_visible_self (l : DrawingLayer) (h : l.visible = true) :
    { l with visible := true } = l := by
  cases l
  simp_all

lemma map_eq_self_of {l : List α} {f : α → α} (h : ∀ a ∈ l, f a = a) : l.map f = l := by
  induction l with
  | nil => rfl
  | cons a t ih =>
    rw [List.map_cons, h a (List.mem_cons_self ..), ih (fun x hx => h x (List.mem_cons_of_mem _ hx))]

lemma applyImageFrame_has_url (t u nid : String) (fr : FrameData) :
    (applyImageLayerToFrame t u .all nid fr).layers.any
      (fun layer => layer.imageUrl == some u) = true := by
  unfold applyImageLayerToFrame
  by_cases hhas : fr.layers.any (fun layer => layer.imageUrl == some u) = true
  · simp only [hhas, if_true]
    obtain ⟨a, ha, hau⟩ := List.any_eq_true.mp hhas
    refine List.any_eq_true.mpr ⟨_, List.mem_map.mpr ⟨a, ha, rfl⟩, ?_⟩
    simp [hau]
  · have hhas' : fr.layers.any (fun layer => layer.imageUrl == some u) = false := by
      simpa using hhas
    simp only [hhas', Bool.false_eq_true, if_false]
    refine List.any_eq_true.mpr ⟨_, List.mem_append_right _ (List.mem_singleton.mpr rfl), ?_⟩
    simp

lemma applyImageFrame_all_visible (t u nid : String) (fr : FrameData) :
    ∀ l ∈ (applyImageLayerToFrame t u .all nid fr).layers,
      l.imageUrl = some u → l.visible = true := by
  unfold applyImageLayerToFrame
  by_cases hhas : fr.layers.any (fun layer => layer.imageUrl == some u) = true
  · simp only [hhas, if_true]
    intro l hl hu
    obtain ⟨a, ha, rfl⟩ := List.mem_map.mp hl
    by_cases hau : (a.imageUrl == some u) = true
    · simp [hau]
    · simp only [hau, Bool.false_eq_true, if_false] at hu ⊢
      exact absurd (by simpa using hu) (by simpa using hau)
  · have hhas' : fr.layers.any (fun layer => layer.imageUrl == some u) = false := by
      simpa using hhas
    simp only [hhas', Bool.false_eq_true, if_false]
    intro l hl hu
    rcases List.mem_append.mp hl with hl | hl
    · obtain ⟨a, ha, rfl⟩ := List.mem_map.mp hl
      have hau : (a.imageUrl == some u) = false := by
        have hall := List.any_eq_false.mp hhas'
        simpa using hall a ha
      simp only [hau, Bool.false_eq_true, if_false] at hu
      exact absurd (by simpa using hu) (by simpa using hau)
    · rw [List.mem_singleton.mp hl]
      simp

lemma applyImageFrame_all_idem (t u nid1 nid2 : String) (fr : FrameData) :
    applyImageLayerToFrame t u .all nid2 (applyImageLayerToFrame t u .all nid1 fr) =
      applyImageLayerToFrame t u .all nid1 fr := by
  have hhas := applyImageFrame_has_url t u nid1 fr
  have hvis := applyImageFrame_all_visible t u nid1 fr
  set g := applyImageLayerToFrame t u LayerScope.all nid1 fr with hg
  unfold applyImageLayerToFrame
  simp only [hhas, if_true, beq_self_eq_true, Bool.true_or]
  have hmap : g.layers.map
      (fun layer => if layer.imageUrl == some u then { layer with visible := true }
        else layer) = g.layers := by
    apply map_eq_self_of
    intro a ha
    by_cases hau : (a.imageUrl == some u) = true
    · simp only [hau, if_true]
      exact layer_set_visible_self a (hvis a ha (by simpa using hau))
    · simp only [hau, Bool.false_eq_true, if_false]
  rw [hmap]

lemma applyImageFrames_all_idem_aux (t u : String) (ids1 ids2 : Nat → String) :
    ∀ (l : List FrameData) (i1 i2 : Nat),
      mapWithIdx (fun i frame => applyImageLayerToFrame t u .all (ids2 i) frame) i2
        (mapWithIdx (fun i frame => applyImageLayerToFrame t u .all (ids1 i) frame) i1 l) =
      mapWithIdx (fun i frame => applyImageLayerToFrame t u .all (ids1 i) frame) i1 l := by
  intro l
  induction l with
  | nil => intro i1 i2; rfl
  | cons fr rest ih =>
    intro i1 i2
    simp only [mapWithIdx]
    rw [applyImageFrame_all_idem, ih]

/-- C9: applying the same image url to all frames twice is idempotent: the
second `applyImageLayerToFrames` call returns the frame list of the first
call unchanged (so no layer list grows and every affected layer's
visibility has already converged to the same value, `true`), whatever
fresh layer ids either call would use; the same holds for the frames of
the project-level `applyImageToFrames` wrapper. -/
theorem applyImage_all_idempotent (frames : List FrameData) (t url : String)
    (ids1 ids2 : Nat → String) (afid : String) (now1 now2 : Nat) (p : AnimatorProject) :
    applyImageLayerToFrames (applyImageLayerToFrames frames t url .all ids1) t url .all ids2 =
      applyImageLayerToFrames frames t url .all ids1 ∧
    (applyImageToFrames (some afid) url .all ids2 now2
        (applyImageToFrames (some afid) url .all ids1 now1 p)).frames =
      (applyImageToFrames (some afid) url .all ids1 now1 p).frames := by
  constructor
  · unfold applyImageLayerToFrames
    exact applyImageFrames_all_idem_aux t url ids1 ids2 frames 0 0
  · show applyImageLayerToFrames (applyImageLayerToFrames p.frames afid url .all ids1)
        afid url .all ids2 = applyImageLayerToFrames p.frames afid url .all ids1
    unfold applyImageLayerToFrames
    exact applyImageFrames_all_idem_aux afid url ids1 ids2 p.frames 0 0

lemma getElem?_mapWithIdx {f : Nat → α → β} :
    ∀ (l : List α) (s i : Nat), (mapWithIdx f s l)[i]? = (l[i]?).map (f (s + i)) := by
  intro l
  induction l with
  | nil => intro s i; simp [mapWithIdx]
  | cons a t ih =>
    intro s i
    cases i with
    | zero => simp [mapWithIdx]
    | succ i =>
      simp only [mapWithIdx, List.getElem?_cons_succ]
      rw [ih (s + 1) i]
      have hsi : s + 1 + i = s + (i + 1) := by omega
      rw [hsi]

/-- C10: `applyImageToFrames(dataUrl, 'frame')` walks every frame of the
project, not only the target: a non-target frame that already holds a
layer with this exact image url keeps its layer count and has every such
layer's visible flag forced to false, and a non-target frame without such
a layer gets a new hidden image layer with that url appended. -/
theorem applyImage_frame_touches_all_frames (frames : List FrameData) (t url : String)
    (ids : Nat → String) (i : Nat) (fr : FrameData)
    (hget : frames[i]? = some fr) (hne : fr.id ≠ t) :
    (applyImageLayerToFrames frames t url .frame ids)[i]? =
      some (applyImageLayerToFrame t url .frame (ids i) fr) ∧
    (fr.layers.any (fun layer => layer.imageUrl == some url) = true →
      (applyImageLayerToFrame t url .frame (ids i) fr).layers.length = fr.layers.length ∧
      ∀ l ∈ (applyImageLayerToFrame t url .frame (ids i) fr).layers,
        l.imageUrl = some url → l.visible = false) ∧
    (fr.layers.any (fun layer => layer.imageUrl == some url) = false →
      (applyImageLayerToFrame t url .frame (ids i) fr).layers =
        fr.layers ++ [{ createLayer (ids i) ("Image " ++ toString (fr.layers.length + 1)) with
          imageUrl := some url, visible := false }]) := by
  have hid : (fr.id == t) = false := by simpa using hne
  refine ⟨?_, ?_, ?_⟩
  · unfold applyImageLayerToFrames
    rw [getElem?_mapWithIdx frames 0 i]
    simp [hget]
  · intro hhas
    unfold applyImageLayerToFrame
    have hsc : (LayerScope.frame == LayerScope.all) = false := rfl
    simp only [hhas, if_true, hsc, hid, Bool.or_self, Bool.false_or]
    constructor
    · simp
    · intro l hl hu
      obtain ⟨a, ha, rfl⟩ := List.mem_map.mp hl
      by_cases hau : (a.imageUrl == some url) = true
      · simp [hau]
      · simp only [hau, Bool.false_eq_true, if_false] at hu ⊢
        exact absurd (by simpa using hu) (by simpa using hau)
  · intro hhas
    unfold applyImageLayerToFrame
    have hsc : (LayerScope.frame == LayerScope.all) = false := rfl
    simp only [hhas, Bool.false_eq_true, if_false, hsc, hid, Bool.or_self, Bool.false_or]
    have hmap : fr.layers.map (fun layer =>
        if layer.imageUrl == some url then { layer with visible := false } else layer) =
        fr.layers := by
      apply map_eq_self_of
      intro a ha
      have hau : (a.imageUrl == some url) = false := by
        have hall := List.any_eq_false.mp hhas
        simpa using hall a ha
      simp [hau]
    rw [hmap]

/-- Target frame of the C10 witness project. -/
def c10FrameA : FrameData :=
  { id := "fA", frameNumber := 0, imageUrl := "bgA",
    layers := [createLayer "la" "Layer 1"], activeLayerId := some "la",
    width := 720, height := 405 }

/-- Non-target frame of the C10 witness project (no layer carries the url). -/
def c10FrameB : FrameData :=
  { id := "fB", frameNumber := 1, imageUrl := "bgB",
    layers := [createLayer "lb" "Layer 1"], activeLayerId := some "lb",
    width := 720, height := 405 }

/-- Id supply for the C10 witness. -/
def c10Ids : Nat → String := fun i => "img" ++ toString i

theorem applyImage_frame_touches_all_frames_witness :
    [c10FrameA, c10FrameB][1]? = some c10FrameB ∧ c10FrameB.id ≠ "fA" ∧
    ((applyImageLayerToFrames [c10FrameA, c10FrameB] "fA" "u1" .frame c10Ids)[1]? =
        some (applyImageLayerToFrame "fA" "u1" .frame (c10Ids 1) c10FrameB) ∧
      (c10FrameB.layers.any (fun layer => layer.imageUrl == some "u1") = true →
        (applyImageLayerToFrame "fA" "u1" .frame (c10Ids 1) c10FrameB).layers.length =
          c10FrameB.layers.length ∧
        ∀ l ∈ (applyImageLayerToFrame "fA" "u1" .frame (c10Ids 1) c10FrameB).layers,
          l.imageUrl = some "u1" → l.visible = false) ∧
      (c10FrameB.layers.any (fun layer => layer.imageUrl == some "u1") = false →
        (applyImageLayerToFrame "fA" "u1" .frame (c10Ids 1) c10FrameB).layers =
          c10FrameB.layers ++
            [{ createLayer (c10Ids 1)
                ("Image " ++ toString (c10FrameB.layers.length + 1)) with
              imageUrl := some "u1", visible := false }])) :=
  ⟨by decide, by decide,
    applyImage_frame_touches_all_frames [c10FrameA, c10FrameB] "fA" "u1" c10Ids 1 c10FrameB
      (by decide) (by decide)⟩

/-- `a.startsWith b` on character lists (kernel-computable model of
`String.prototype.startsWith`). -/
def listStartsWith : List Char → List Char → Bool
  | _, [] => true
  | [], _ :: _ => false
  | a :: s, b :: pre => a == b && listStartsWith s pre

/-- `s.startsWith(pre)` for the layer-name checks. -/
def jsStartsWith (s pre : String) : Bool :=
  listStartsWith s.data pre.data

/-- Whether the cooperative cancellation flag reads true at the check made
just before processing frame `i`.  `cancelAt = some k` models the user
pressing cancel so that the flag is first observed at check index `k`; the
guard after the loop is check index `frames.length`. -/
def cancelledAt (cancelAt : Option Nat) (i : Nat) : Bool :=
  match cancelAt with
  | some k => k ≤ i
  | none => false

/-- Per-frame step of handleAutoTrace (`App.tsx` 864-904): take the first
visible image layer as the source (push the frame unchanged if none),
compute the outline mask (the inference engine is the `outline`
parameter), skip frames that already have an "Auto Trace" layer, else
append a visible "Auto Trace 1" image layer. -/
def autoTraceFrame (outline : String → String) (newId : String) (frame : FrameData) :
    FrameData :=
  match (frame.layers.find? (fun layer => layer.visible && layer.imageUrl.isSome)).bind
      (fun layer => layer.imageUrl) with
  | none => frame
  | some sourceImageUrl =>
    let outlineUrl := outline sourceImageUrl
    if frame.layers.any (fun layer => jsStartsWith layer.name "Auto Trace") then frame
    else
      { frame with layers := frame.layers ++
          [{ createLayer newId "Auto Trace 1" with
             imageUrl := some outlineUrl, visible := true }] }

/-- The `for` loop of handleAutoTrace: frames are processed in order and
the loop breaks at the first check where the flag reads true. -/
def autoTraceLoop (outline : String → String) (ids : Nat → String)
    (cancelAt : Option Nat) : Nat → List FrameData → List FrameData
  | _, [] => []
  | i, fr :: rest =>
    if cancelledAt cancelAt i then []
    else autoTraceFrame outline (ids i) fr ::
      autoTraceLoop outline ids cancelAt (i + 1) rest

/-- handleAutoTrace (`App.tsx` 852-922) on the project value: no-op for an
empty project; otherwise the loop runs, and the collected frames replace
the project's frames only when the flag was never observed
(`!autoTraceCancelledRef.current`) and at least one frame was collected. -/
def handleAutoTrace (outline : String → String) (ids : Nat → String)
    (cancelAt : Option Nat) (now : Nat) (p : AnimatorProject) : AnimatorProject :=
  if p.frames.isEmpty then p
  else
    let updatedFrames := autoTraceLoop outline ids cancelAt 0 p.frames
    if !(cancelledAt cancelAt p.frames.length) && !updatedFrames.isEmpty then
      { frames := updatedFrames, updatedAt := now }
    else p

/-- First frame of the C8 example: one visible video layer, no outline. -/
def c8Frame1 : FrameData :=
  { id := "g1", frameNumber := 0, imageUrl := "b1",
    layers := [{ createLayer "v1" "Video Layer 1" with imageUrl := some "i1" }],
    activeLayerId := some "v1", width := 720, height := 405 }

/-- Second frame of the C8 example. -/
def c8Frame2 : FrameData :=
  { id := "g2", frameNumber := 1, imageUrl := "b2",
    layers := [{ createLayer "v2" "Video Layer 1" with imageUrl := some "i2" }],
    activeLayerId := some "v2", width := 720, height := 405 }

/-- Two-frame project for the C8 cancellation example. -/
def c8Project : AnimatorProject :=
  { frames := [c8Frame1, c8Frame2], updatedAt := 0 }

/-- Outline engine stub for the C8 example. -/
def c8Outline : String → String := fun u => u ++ "-outline"

/-- Id supply for the C8 example. -/
def c8Ids : Nat → String := fun i => "at" ++ toString i

/-- C8 is false as stated: cancelling after frame 0 was processed (flag
first observed at check index 1) leaves the project completely unchanged —
frame 0's finished outline layer (the loop did produce a 2-layer frame 0)
is discarded, not kept. -/
theorem autotrace_cancel_discards_results :
    handleAutoTrace c8Outline c8Ids (some 1) 9 c8Project = c8Project ∧
    (autoTraceLoop c8Outline c8Ids (some 1) 0 c8Project.frames).length = 1 ∧
    ((autoTraceLoop c8Outline c8Ids (some 1) 0 c8Project.frames)[0]?.map
      (fun fr => fr.layers.length)) = some 2 ∧
    (c8Project.frames[0]?.map (fun fr => fr.layers.length)) = some 1 := by decide

/-- C8 amended: cancellation discards everything.  Whenever the flag is
observed at or before the final guard, handleAutoTrace commits nothing:
the project is returned exactly as it was, and completed frames' outline
results are dropped with it. -/
theorem autotrace_cancel_leaves_project_unchanged (outline : String → String)
    (ids : Nat → String) (k now : Nat) (p : AnimatorProject)
    (hk : k ≤ p.frames.length) :
    handleAutoTrace outline ids (some k) now p = p := by
  unfold handleAutoTrace
  by_cases he : p.frames.isEmpty = true
  · rw [if_pos he]
  rw [if_neg he]
  have hval : cancelledAt (some k) p.frames.length = true := by
    simp [cancelledAt, hk]
  simp [hval]

theorem autotrace_cancel_leaves_project_unchanged_witness :
    1 ≤ c8Project.frames.length ∧
    handleAutoTrace c8Outline c8Ids (some 1) 9 c8Project = c8Project :=
  ⟨by decide,
    autotrace_cancel_leaves_project_unchanged c8Outline c8Ids 1 9 c8Project (by decide)⟩

/-- One painting action of the per-frame export loop in handleMovieGenerate
(`App.tsx` 256-348), listed in bottom-to-top paint order. -/
inductive PaintOp
  | fillWhite
  | drawImage (url : String)
  | drawAutoTraceAlpha (url : String)
  | drawStroke (stroke : DrawingStroke)
deriving DecidableEq, Repr

/-- Paint actions contributed by one layer during export
(`App.tsx` 272-338): nothing when `layerSettings[layer.name] ?? layer.visible`
is false; otherwise its image — with the Auto Trace alpha-to-gray rewrite —
followed by its strokes, in order. -/
def renderLayerOps (layerSettings : String → Option Bool) (layer : DrawingLayer) :
    List PaintOp :=
  let isVisible := (layerSettings layer.name).getD layer.visible
  if isVisible then
    (match layer.imageUrl with
     | some url =>
       if jsStartsWith layer.name "Auto Trace" then [PaintOp.drawAutoTraceAlpha url]
       else [PaintOp.drawImage url]
     | none => []) ++ layer.strokes.map PaintOp.drawStroke
  else []

/-- Paint actions for one exported frame (`App.tsx` 265-338): the canvas is
cleared with a white fill, then each layer is painted in array order.  The
frame's base image (`frame.imageUrl`) does not appear in this pipeline. -/
def renderExportFrame (layerSettings : String → Option Bool) (frame : FrameData) :
    List PaintOp :=
  PaintOp.fillWhite :: (frame.layers.map (renderLayerOps layerSettings)).flatten

/-- Export frame for the C7 example: a solid-color base image and a single
visible video layer. -/
def c7Frame : FrameData :=
  { id := "e1", frameNumber := 0, imageUrl := "solid-blue",
    layers := [{ createLayer "v" "Video Layer 1" with imageUrl := some "video-content" }],
    activeLayerId := some "v", width := 720, height := 405 }

/-- Override map hiding "Video Layer 1" for the C7 example. -/
def c7Settings : String → Option Bool :=
  fun n => if n == "Video Layer 1" then some false else none

/-- C7 is false as stated: the export pipeline never paints the frame's
base image.  Hiding "Video Layer 1" on a frame whose base image is a solid
color yields a bare white fill — the solid color is absent from the paint
actions entirely. -/
theorem export_base_image_not_painted :
    renderExportFrame c7Settings c7Frame = [PaintOp.fillWhite] ∧
    PaintOp.drawImage c7Frame.imageUrl ∉ renderExportFrame c7Settings c7Frame := by
  decide

/-- C7 amended: each exported frame starts from a white fill, not from the
frame's base image; when the override map (with the layer's own visibility
as fallback) hides every layer, the exported raster is exactly the white
fill, whatever the base image holds. -/
theorem export_white_fill_when_all_hidden (layerSettings : String → Option Bool)
    (frame : FrameData)
    (h : ∀ l ∈ frame.layers, (layerSettings l.name).getD l.visible = false) :
    renderExportFrame layerSettings frame = [PaintOp.fillWhite] := by
  unfold renderExportFrame
  have hall : ∀ l ∈ frame.layers, renderLayerOps layerSettings l = [] := by
    intro l hl
    unfold renderLayerOps
    simp [h l hl]
  have hmap : frame.layers.map (renderLayerOps layerSettings) =
      frame.layers.map (fun _ => ([] : List PaintOp)) := by
    apply List.map_congr_left
    intro l hl
    rw [hall l hl]
  rw [hmap]
  simp

theorem export_white_fill_witness :
    (∀ l ∈ c7Frame.layers, (c7Settings l.name).getD l.visible = false) ∧
    renderExportFrame c7Settings c7Frame = [PaintOp.fillWhite] :=
  ⟨by decide, export_white_fill_when_all_hidden c7Settings c7Frame (by decide)⟩

lemma lookupIdx_eq_none {p : α → Bool} {l : List α} (h : lookupIdx p l = none) :
    ∀ a ∈ l, p a = false := by
  induction l with
  | nil => simp
  | cons x xs ih =>
    intro a ha
    by_cases hx : p x = true
    · simp [lookupIdx, hx] at h
    · rw [lookupIdx] at h
      have hx' : p x = false := by simpa using hx
      rw [hx'] at h
      simp only [Bool.false_eq_true, if_false, Option.map_eq_none'] at h
      rcases List.mem_cons.mp ha with rfl | ha
      · exact hx'
      · exact ih h a ha

lemma lookupIdx_map_pred {p : α → Bool} {g : α → α} (hg : ∀ x, p (g x) = p x) :
    ∀ {l : List α} {i : Nat} {a : α}, lookupIdx p l = some (i, a) →
      lookupIdx p (l.map g) = some (i, g a) := by
  intro l
  induction l with
  | nil => intro i a h; simp [lookupIdx] at h
  | cons x xs ih =>
    intro i a h
    by_cases hx : p x = true
    · simp [lookupIdx, hx] at h
      obtain ⟨h1, h2⟩ := h
      subst h1; subst h2
      simp [List.map_cons, lookupIdx, hg x, hx]
    · have hx' : p x = false := by simpa using hx
      rw [lookupIdx, hx'] at h
      simp only [Bool.false_eq_true, if_false] at h
      obtain ⟨⟨j, c⟩, hj, hmk⟩ := Option.map_eq_some'.mp h
      simp only [Prod.mk.injEq] at hmk
      obtain ⟨h1, h2⟩ := hmk
      subst h1; subst h2
      have hgx : p (g x) = false := by rw [hg x]; exact hx'
      simp [List.map_cons, lookupIdx, hgx, ih hj]

/-- Single-frame project for the C6 example, carrying every optional field. -/
def c6Frame : FrameData :=
  { id := "x1", frameNumber := 0, imageUrl := "bg",
    layers := [createLayer "l1" "Layer 1"], activeLayerId := some "l1",
    width := 720, height := 405 }

/-- Valid two-point stroke for the C6 example. -/
def c6Stroke : DrawingStroke :=
  { id := "s6", points := [0, 0, 1, 1], color := "#000000", size := 3, mode := .pencil }

/-- Editor state whose project has a name, background color and audio url. -/
def c6State : EditorState :=
  { project :=
      { name := some "My project", backgroundColor := some "#ffffff",
        frames := [c6Frame], audioUrl := some "aud", updatedAt := 0 },
    redoStacks := [] }

/-- C6 is false in its no-op clause: committing a valid stroke to a frame
id that does not exist leaves the frames list unchanged but does not leave
the project value unchanged — the handler still rebuilds the project,
refreshing `updatedAt` and dropping the optional `name`, `backgroundColor`
and `audioUrl` fields. -/
theorem commit_missing_frame_not_noop :
    strokesAt c6State "nosuch" "l1" = none ∧
    2 < c6Stroke.points.length ∧
    (commitStrokeChecked "nosuch" "l1" c6Stroke 5 c6State).project.frames =
      c6State.project.frames ∧
    (commitStrokeChecked "nosuch" "l1" c6Stroke 5 c6State).project ≠
      c6State.project := by decide

/-- C6 amended: the commit path (`finishStroke` guard + handleCommitStroke)
(a) drops a stroke with a single coordinate pair (`points.length ≤ 2`)
entirely — the whole editor state is unchanged; (b) appends a valid stroke
(`points.length > 2`) at the end of the target layer's stroke list; and
(c) when the frame or layer is not found (with frame ids distinct, as
uuids are), the frames list is unchanged — though the handler still
rebuilds the project value with a fresh `updatedAt` and without the
optional name/backgroundColor/audioUrl fields, so the call is not a strict
no-op on the project. -/
theorem commitStroke_checked_behavior :
    (∀ (f l : String) (s : DrawingStroke) (now : Nat) (st : EditorState),
      s.points.length ≤ 2 → commitStrokeChecked f l s now st = st) ∧
    (∀ (f l : String) (s : DrawingStroke) (now : Nat) (st : EditorState)
      (strokes : List DrawingStroke), 2 < s.points.length →
      strokesAt st f l = some strokes →
      strokesAt (commitStrokeChecked f l s now st) f l = some (strokes ++ [s])) ∧
    (∀ (f l : String) (s : DrawingStroke) (now : Nat) (st : EditorState),
      (st.project.frames.map (fun fr => fr.id)).Nodup →
      2 < s.points.length → strokesAt st f l = none →
      (commitStrokeChecked f l s now st).project.frames = st.project.frames) := by
  refine ⟨?_, ?_, ?_⟩
  · intro f l s now st hlen
    unfold commitStrokeChecked
    rw [if_neg (by omega)]
  · intro f l s now st strokes hlen hsome
    obtain ⟨fi, frame, li, ly, hf, hl, hstr⟩ := strokesAt_elim hsome
    subst hstr
    unfold commitStrokeChecked
    rw [if_pos hlen]
    unfold handleCommitStroke strokesAt
    have hg : ∀ x : FrameData,
        (((fun frame : FrameData =>
          if frame.id == f then
            { frame with layers := frame.layers.map (fun layer =>
                if layer.id == l then { layer with strokes := layer.strokes ++ [s] }
                else layer) }
          else frame) x).id == f) = (x.id == f) := by
      intro x
      by_cases hid : (x.id == f) = true
      · simp [hid]
      · have hid' : (x.id == f) = false := by simpa using hid
        simp [hid']
    have hlook := lookupIdx_map_pred hg hf
    simp only [hlook]
    have hidf : (frame.id == f) = true := (lookupIdx_getElem hf).2
    simp only [hidf, if_true]
    have hgl : ∀ y : DrawingLayer,
        (((fun layer : DrawingLayer =>
          if layer.id == l then { layer with strokes := layer.strokes ++ [s] }
          else layer) y).id == l) = (y.id == l) := by
      intro y
      by_cases hid : (y.id == l) = true
      · simp [hid]
      · have hid' : (y.id == l) = false := by simpa using hid
        simp [hid']
    have hlook2 := lookupIdx_map_pred hgl hl
    simp only [hlook2]
    have hidl : (ly.id == l) = true := (lookupIdx_getElem hl).2
    simp only [hidl, if_true]
  · intro f l s now st hnd hlen hnone
    unfold commitStrokeChecked
    rw [if_pos hlen]
    show st.project.frames.map _ = st.project.frames
    apply map_eq_self_of
    intro fr hfr
    unfold strokesAt at hnone
    rcases hlf : lookupIdx (fun fr => fr.id == f) st.project.frames with _ | ⟨fi, frame⟩
    · have hfa := lookupIdx_eq_none hlf fr hfr
      simp [hfa]
    · simp only [hlf] at hnone
      rcases hll : lookupIdx (fun x => x.id == l) frame.layers with _ | pair
      · by_cases hid : (fr.id == f) = true
        · have hfmem : frame ∈ st.project.frames := mem_of_getElem? (lookupIdx_getElem hlf).1
          have hidf : (frame.id == f) = true := (lookupIdx_getElem hlf).2
          have hfeq : fr = frame := by
            apply List.inj_on_of_nodup_map hnd hfr hfmem
            rw [show fr.id = f from by simpa using hid, show frame.id = f from by simpa using hidf]
          subst hfeq
          simp only [hid, if_true]
          have hmap : fr.layers.map (fun layer =>
              if layer.id == l then { layer with strokes := layer.strokes ++ [s] }
              else layer) = fr.layers := by
            apply map_eq_self_of
            intro y hy
            have := lookupIdx_eq_none hll y hy
            simp [this]
          rw [hmap]
        · have hid' : (fr.id == f) = false := by simpa using hid
          simp [hid']
      · simp only [hll] at hnone
        simp at hnone

/-- Editor state with a real frame and layer used to witness C6. -/
def c6GoodState : EditorState :=
  { project := { frames := [c6Frame], updatedAt := 0 }, redoStacks := [] }

/-- Single-pair stroke (one coordinate pair, `points.length = 2`). -/
def c6ShortStroke : DrawingStroke :=
  { id := "s0", points := [4, 4], color := "#000000", size := 3, mode := .pencil }

theorem commitStroke_checked_behavior_witness :
    (c6ShortStroke.points.length ≤ 2 ∧
      commitStrokeChecked "x1" "l1" c6ShortStroke 5 c6GoodState = c6GoodState) ∧
    (2 < c6Stroke.points.length ∧ strokesAt c6GoodState "x1" "l1" = some [] ∧
      strokesAt (commitStrokeChecked "x1" "l1" c6Stroke 5 c6GoodState) "x1" "l1" =
        some ([] ++ [c6Stroke])) ∧
    ((c6GoodState.project.frames.map (fun fr => fr.id)).Nodup ∧
      strokesAt c6GoodState "nosuch" "l1" = none ∧
      (commitStrokeChecked "nosuch" "l1" c6Stroke 5 c6GoodState).project.frames =
        c6GoodState.project.frames) :=
  ⟨⟨by decide, commitStroke_checked_behavior.1 "x1" "l1" c6ShortStroke 5 c6GoodState
      (by decide)⟩,
    ⟨by decide, by decide,
      commitStroke_checked_behavior.2.1 "x1" "l1" c6Stroke 5 c6GoodState [] (by decide)
        (by decide)⟩,
    ⟨by decide, by decide,
      commitStroke_checked_behavior.2.2 "nosuch" "l1" c6Stroke 5 c6GoodState (by decide)
        (by decide) (by decide)⟩⟩
